import Mathlib

/-!
Shallow embedding of the user-management vertical of the skillcert backend
(`src/users`): the data-access layer (`users.repository.ts`), the business
layer (`providers/users.service.ts`) and the pagination boundary of the API
layer (`controllers/users.controller.ts`).

The relational store is modelled as a list of user rows together with a
fresh-id source (modelling UUID generation on insert) and a logical clock
(modelling the storage-maintained `createdAt` / `updatedAt` timestamps).
JavaScript numbers reaching the pagination path are modelled by `JsNum`
(`nan` or an integer), which captures `parseInt` results and JS truthiness;
general floating point is not needed on any path the claims touch.
-/

namespace Skillcert

/-- Modelled from the spec: `user-role.enum.ts` is not among the provided
sources; the spec describes `role` as "enumerated: learner or elevated /
professor-admin role" with default learner (`UserRole.USER`). -/
inductive UserRole where
  | user
  | professor
  | admin
deriving DecidableEq, Repr

/-- Modelled from the spec: `entities/user.entity.ts` is not among the
provided sources. Fields follow the spec's data model: `id` (UUID, generated
on insert), `name`, `email`, `password` (stored hash), `role`, optional
`walletAddress` (nullable), storage-maintained `createdAt` / `updatedAt`
(modelled as logical-clock readings). -/
structure User where
  id : String
  name : String
  email : String
  password : String
  role : UserRole
  walletAddress : Option String
  createdAt : Nat
  updatedAt : Nat
deriving DecidableEq, Repr

/-- Embeds `dto/create-user.dto.ts`: name, email, password required; role and
walletAddress optional. -/
structure CreateUserDto where
  name : String
  email : String
  password : String
  role : Option UserRole
  walletAddress : Option String
deriving DecidableEq, Repr

/-- Modelled from the spec: `dto/update-user.dto.ts` is not among the
provided sources; the spec says update applies "partial field replacement",
so every field is optional. -/
structure UpdateUserDto where
  name : Option String
  email : Option String
  password : Option String
  role : Option UserRole
deriving DecidableEq, Repr

/-- Embeds `dto/user-response.dto.ts`: the public response shape; exactly id, name,
email, role, walletAddress (nullable), createdAt, updatedAt — no password. -/
structure UserResponseDto where
  id : String
  name : String
  email : String
  role : UserRole
  walletAddress : Option String
  createdAt : Nat
  updatedAt : Nat
deriving DecidableEq, Repr

/-- JS truthiness of an optional string (`if (x)` on a `string | undefined`):
false for `undefined` and for the empty string. -/
def optStrTruthy : Option String → Bool
  | none => false
  | some s => s ≠ ""

/-- JS `.toLowerCase()`, modelled character-wise. -/
def jsToLowerCase (s : String) : String :=
  ⟨s.data.map Char.toLower⟩

/-- Modelled from the spec: `common/constants.ts` is not among the provided
sources; the spec says the hash uses a "fixed cost factor". -/
def PASSWORD_SALT_ROUNDS : Nat := 10

/-- Modelled from the spec: `bcrypt.hash` is an external library. The spec
describes it as "a deterministic, computationally expensive salted hash
(fixed cost factor)"; the model keeps the properties the claims rely on
(a function of the plaintext, and never equal to the plaintext). -/
def bcryptHash (password : String) (costFactor : Nat) : String :=
  ⟨'$' :: (List.replicate costFactor '*') ++ password.data⟩

/-- Modelled from the spec: UUID generation on insert. An injective source of
non-empty ids, driven by the store's fresh-id counter. -/
def genId (n : Nat) : String :=
  ⟨List.replicate (n + 1) 'u'⟩

/-- The relational store: the `users` table plus the id source and the
timestamp clock that the storage layer maintains. -/
structure Db where
  rows : List User
  nextId : Nat
  clock : Nat
deriving DecidableEq, Repr

/-- Store well-formedness: every persisted row carries an id generated by an
earlier insert, and ids are pairwise distinct (the primary-key invariant the
relational store enforces). -/
def Db.WF (db : Db) : Prop :=
  (∀ u ∈ db.rows, ∃ k, k < db.nextId ∧ u.id = genId k) ∧
  (db.rows.map (·.id)).Nodup

/-! ## Data-access layer (`users.repository.ts`)

The service layer never passes a `DateRangeFilterDto` to `findAll`
(`usersService.findAll` calls `usersRepository.findAll(page, limit)`), so the
optional date-filter branch is always skipped and is omitted from the model.
-/

/-- Embeds `UsersRepository.create`: normalises `walletAddress` to lowercase when
truthy, stores `null` otherwise; the store generates id and timestamps. -/
def repoCreate (dto : CreateUserDto) (db : Db) : User × Db :=
  let u : User :=
    { id := genId db.nextId
      name := dto.name
      email := dto.email
      password := dto.password
      role := dto.role.getD UserRole.user
      walletAddress :=
        if optStrTruthy dto.walletAddress then
          some (jsToLowerCase (dto.walletAddress.getD ""))
        else
          none
      createdAt := db.clock
      updatedAt := db.clock }
  (u, { rows := db.rows ++ [u], nextId := db.nextId + 1, clock := db.clock + 1 })

/-- Insert into a list already sorted by `createdAt` descending. -/
def insertByCreatedDesc (u : User) : List User → List User
  | [] => [u]
  | v :: vs =>
    if v.createdAt ≤ u.createdAt then u :: v :: vs
    else v :: insertByCreatedDesc u vs

/-- Embeds `ORDER BY user.createdAt DESC`, modelled as insertion sort. -/
def sortByCreatedDesc : List User → List User
  | [] => []
  | u :: us => insertByCreatedDesc u (sortByCreatedDesc us)

/-- JS number as it reaches the pagination path: `parseInt` yields either
`NaN` or an integer. -/
inductive JsNum where
  | nan
  | int (i : Int)
deriving DecidableEq, Repr

/-- JS truthiness of a number: `NaN` and `0` are falsy. -/
def JsNum.truthy : JsNum → Bool
  | .nan => false
  | .int i => i ≠ 0

/-- JS truthiness of an optional number argument (`undefined` is falsy). -/
def optNumTruthy : Option JsNum → Bool
  | none => false
  | some n => n.truthy

/-- The `if (page && limit) { skip = (page - 1) * limit; ... }` block of
`UsersRepository.findAll`: the skip/take arguments actually handed to the
query, `none` when the truthiness guard rejects the pair. -/
def paginationArgs (page limit : Option JsNum) : Option (Int × Int) :=
  match page, limit with
  | some (.int p), some (.int l) =>
    if p ≠ 0 ∧ l ≠ 0 then some ((p - 1) * l, l) else none
  | _, _ => none

/-- Embeds `UsersRepository.findAll`: rows ordered by `createdAt` descending,
paginated only when both `page` and `limit` are truthy; `getManyAndCount`
reports the total row count unaffected by skip/take. -/
def repoFindAll (page limit : Option JsNum) (db : Db) : List User × Nat :=
  let sorted := sortByCreatedDesc db.rows
  match paginationArgs page limit with
  | some (skip, take) => ((sorted.drop skip.toNat).take take.toNat, db.rows.length)
  | none => (sorted, db.rows.length)

/-- Embeds `UsersRepository.findById`: single row by primary key, or `none`. -/
def repoFindById (id : String) (db : Db) : Option User :=
  db.rows.find? (fun u => u.id = id)

/-- Embeds `UsersRepository.findByWalletAddress`: the lookup address is lowercased
before comparison with the stored column. -/
def repoFindByWalletAddress (walletAddress : String) (db : Db) : Option User :=
  db.rows.find? (fun u => u.walletAddress = some (jsToLowerCase walletAddress))

/-- TypeORM `update(id, partial)`: apply exactly the provided fields to the
matching row; the store refreshes `updatedAt`. -/
def applyUpdate (dto : UpdateUserDto) (u : User) (now : Nat) : User :=
  { u with
    name := dto.name.getD u.name
    email := dto.email.getD u.email
    password := dto.password.getD u.password
    role := dto.role.getD u.role
    updatedAt := now }

/-- Embeds `UsersRepository.update`: partial update by id, then re-read the row. -/
def repoUpdate (id : String) (dto : UpdateUserDto) (db : Db) : Option User × Db :=
  let db' : Db :=
    { db with
      rows := db.rows.map (fun u => if u.id = id then applyUpdate dto u db.clock else u)
      clock := db.clock + 1 }
  (repoFindById id db', db')

/-- The row update performed by `UsersRepository.linkWallet`: set only the
lowercased wallet address (the store refreshes `updatedAt`). -/
def linkRow (walletAddress : String) (now : Nat) (u : User) : User :=
  { u with walletAddress := some (jsToLowerCase walletAddress), updatedAt := now }

/-- Embeds `UsersRepository.linkWallet`: persist only the lowercased wallet address,
then re-read the row. -/
def repoLinkWallet (id : String) (walletAddress : String) (db : Db) : Option User × Db :=
  let db' : Db :=
    { db with
      rows := db.rows.map (fun u =>
        if u.id = id then linkRow walletAddress db.clock u else u)
      clock := db.clock + 1 }
  (repoFindById id db', db')

/-- Embeds `UsersRepository.delete`: hard delete by id; reports whether any row was
removed. -/
def repoDelete (id : String) (db : Db) : Bool × Db :=
  let remaining := db.rows.filter (fun u => u.id ≠ id)
  (remaining.length < db.rows.length, { db with rows := remaining })

/-- Embeds `UsersRepository.exists`: count rows with the given id. -/
def repoExists (id : String) (db : Db) : Bool :=
  0 < (db.rows.filter (fun u => u.id = id)).length

/-- Embeds `UsersRepository.emailExists`: exact (case-sensitive) equality on the
email column; the `excludeId` filter is added only when truthy. -/
def emailExists (email : String) (excludeId : Option String) (db : Db) : Bool :=
  0 < (db.rows.filter (fun u =>
    u.email == email &&
      (if optStrTruthy excludeId then u.id != excludeId.getD "" else true))).length

/-- Embeds `UsersRepository.walletExists`: the probe address is lowercased before
exact comparison with the stored column; `excludeId` filter when truthy. -/
def walletExists (walletAddress : String) (excludeId : Option String) (db : Db) : Bool :=
  0 < (db.rows.filter (fun u =>
    u.walletAddress == some (jsToLowerCase walletAddress) &&
      (if optStrTruthy excludeId then u.id != excludeId.getD "" else true))).length

/-! ## Business layer (`providers/users.service.ts`)

Mutating operations return the outcome together with the resulting store
state; on every early-exit failure no write has happened, so the incoming
state is returned unchanged. -/

/-- The typed failures of the service layer. -/
inductive SvcError where
  | badRequest
  | conflict
  | notFound
deriving DecidableEq, Repr

/-- Embeds `UsersService.toResponseDto`: project the public fields; `walletAddress`
defaults to `null` via `??`. -/
def toResponseDto (u : User) : UserResponseDto :=
  { id := u.id
    name := u.name
    email := u.email
    role := u.role
    walletAddress := u.walletAddress
    createdAt := u.createdAt
    updatedAt := u.updatedAt }

/-- Embeds `UsersService.create`: Conflict on existing email, Conflict on a provided
and already-linked wallet address, otherwise hash the password and persist. -/
def svcCreate (dto : CreateUserDto) (db : Db) : Except SvcError UserResponseDto × Db :=
  if emailExists dto.email none db then (.error .conflict, db)
  else if optStrTruthy dto.walletAddress ∧
      walletExists (dto.walletAddress.getD "") none db then (.error .conflict, db)
  else
    let hashedPassword := bcryptHash dto.password PASSWORD_SALT_ROUNDS
    let (saved, db') := repoCreate { dto with password := hashedPassword } db
    (.ok (toResponseDto saved), db')

/-- Embeds `UsersService.findAll`: delegate, map rows to the public shape. -/
def svcFindAll (page limit : Option JsNum) (db : Db) : List UserResponseDto × Nat :=
  let (users, total) := repoFindAll page limit db
  (users.map toResponseDto, total)

/-- Embeds `UsersService.findById`: BadRequest on empty id, NotFound when absent. -/
def svcFindById (id : String) (db : Db) : Except SvcError UserResponseDto :=
  if id = "" then .error .badRequest
  else
    match repoFindById id db with
    | none => .error .notFound
    | some u => .ok (toResponseDto u)

/-- Embeds `UsersService.update`: BadRequest on empty id; NotFound when absent;
Conflict when a truthy input email collides with a different row; a truthy
input password is re-hashed before the partial update is persisted. -/
def svcUpdate (id : String) (dto : UpdateUserDto) (db : Db) :
    Except SvcError UserResponseDto × Db :=
  if id = "" then (.error .badRequest, db)
  else if ¬ repoExists id db then (.error .notFound, db)
  else if optStrTruthy dto.email ∧ emailExists (dto.email.getD "") (some id) db then
    (.error .conflict, db)
  else
    let dto' :=
      if optStrTruthy dto.password then
        { dto with password := some (bcryptHash (dto.password.getD "") PASSWORD_SALT_ROUNDS) }
      else dto
    match repoUpdate id dto' db with
    | (none, db') => (.error .notFound, db')
    | (some updatedUser, db') => (.ok (toResponseDto updatedUser), db')

/-- Embeds `UsersService.delete`: BadRequest on empty id; NotFound when absent; a
second NotFound when the delete reports nothing removed. -/
def svcDelete (id : String) (db : Db) : Except SvcError Unit × Db :=
  if id = "" then (.error .badRequest, db)
  else if ¬ repoExists id db then (.error .notFound, db)
  else
    let (deleted, db') := repoDelete id db
    if deleted then (.ok (), db') else (.error .notFound, db')

/-- Embeds `UsersService.findByWalletAddress`: BadRequest on empty address, NotFound
when no row matches. -/
def svcFindByWalletAddress (walletAddress : String) (db : Db) :
    Except SvcError UserResponseDto :=
  if walletAddress = "" then .error .badRequest
  else
    match repoFindByWalletAddress walletAddress db with
    | none => .error .notFound
    | some u => .ok (toResponseDto u)

/-- Embeds `UsersService.linkWallet`: BadRequest on empty id; NotFound when the user
is absent; Conflict when the address is already linked to a different
account; then persist the lowercased address. -/
def svcLinkWallet (id : String) (walletAddress : String) (db : Db) :
    Except SvcError UserResponseDto × Db :=
  if id = "" then (.error .badRequest, db)
  else if ¬ repoExists id db then (.error .notFound, db)
  else if walletExists walletAddress (some id) db then (.error .conflict, db)
  else
    match repoLinkWallet id walletAddress db with
    | (none, db') => (.error .notFound, db')
    | (some updatedUser, db') => (.ok (toResponseDto updatedUser), db')

/-! ## API layer pagination boundary (`controllers/users.controller.ts`) -/

/-- JS `parseInt(s, 10)`: skip leading whitespace, optional sign, consume the
leading decimal digits; `NaN` when no digit is consumed. -/
def parseIntJs (s : String) : JsNum :=
  let cs := s.data.dropWhile Char.isWhitespace
  let (sign, rest) : Int × List Char :=
    match cs with
    | '-' :: cs' => (-1, cs')
    | '+' :: cs' => (1, cs')
    | _ => (1, cs)
  let digits := rest.takeWhile Char.isDigit
  if digits.isEmpty then .nan
  else .int (sign * (digits.foldl (fun acc c => acc * 10 + (c.toNat - '0'.toNat)) 0 : Nat))

/-- The `GET /users` response envelope
`{ message, data, total, page, limit }`. -/
structure FindAllEnvelope where
  message : String
  data : List UserResponseDto
  total : Nat
  page : JsNum
  limit : JsNum
deriving DecidableEq, Repr

/-- Embeds `UsersController.findAll`: query parameters default to `'1'` / `'10'`,
are parsed with `parseInt(_, 10)`, and the parsed numbers are passed on to
the service and echoed in the envelope. -/
def controllerFindAll (page limit : Option String) (db : Db) : FindAllEnvelope :=
  let pageNumber := parseIntJs (page.getD "1")
  let limitNumber := parseIntJs (limit.getD "10")
  let (users, total) := svcFindAll (some pageNumber) (some limitNumber) db
  { message := "Users retrieved successfully"
    data := users
    total := total
    page := pageNumber
    limit := limitNumber }

/-! ## Basic lemmas about the embedding -/

theorem jsToLowerCase_eq_empty_iff (s : String) : jsToLowerCase s = "" ↔ s = "" := by
  constructor
  · intro h
    have hdata : s.data.map Char.toLower = [] := congrArg String.data h
    have hnil : s.data = [] := List.map_eq_nil_iff.mp hdata
    exact String.ext (by simpa using hnil)
  · intro h
    subst h
    rfl

theorem genId_ne_empty (n : Nat) : genId n ≠ "" := by
  intro h
  have hdata : List.replicate (n + 1) 'u' = ([] : List Char) := congrArg String.data h
  simpa using congrArg List.length hdata

theorem genId_injective {m n : Nat} (h : genId m = genId n) : m = n := by
  have hdata : List.replicate (m + 1) 'u' = List.replicate (n + 1) 'u' :=
    congrArg String.data h
  have := congrArg List.length hdata
  simpa using this

theorem bcryptHash_ne_plaintext (password : String) (costFactor : Nat) :
    bcryptHash password costFactor ≠ password := by
  intro h
  have hdata := congrArg (fun s => s.data.length) h
  simp [bcryptHash] at hdata
  omega

theorem emailExists_iff (email : String) (excludeId : Option String) (db : Db) :
    emailExists email excludeId db = true ↔
      ∃ u ∈ db.rows, u.email = email ∧
        (optStrTruthy excludeId = true → u.id ≠ excludeId.getD "") := by
  by_cases ht : optStrTruthy excludeId = true <;>
    simp [emailExists, ← List.countP_eq_length_filter, List.countP_pos_iff, ht]

theorem walletExists_iff (walletAddress : String) (excludeId : Option String) (db : Db) :
    walletExists walletAddress excludeId db = true ↔
      ∃ u ∈ db.rows, u.walletAddress = some (jsToLowerCase walletAddress) ∧
        (optStrTruthy excludeId = true → u.id ≠ excludeId.getD "") := by
  by_cases ht : optStrTruthy excludeId = true <;>
    simp [walletExists, ← List.countP_eq_length_filter, List.countP_pos_iff, ht]

theorem repoExists_iff (id : String) (db : Db) :
    repoExists id db = true ↔ ∃ u ∈ db.rows, u.id = id := by
  simp [repoExists, ← List.countP_eq_length_filter, List.countP_pos_iff]

theorem insertByCreatedDesc_perm (u : User) (l : List User) :
    (insertByCreatedDesc u l).Perm (u :: l) := by
  induction l with
  | nil => simp [insertByCreatedDesc]
  | cons v vs ih =>
    simp only [insertByCreatedDesc]
    by_cases h : v.createdAt ≤ u.createdAt
    · rw [if_pos h]
    · rw [if_neg h]
      exact (List.Perm.cons v ih).trans (List.Perm.swap u v vs)

theorem sortByCreatedDesc_perm (l : List User) : (sortByCreatedDesc l).Perm l := by
  induction l with
  | nil => simp [sortByCreatedDesc]
  | cons u us ih =>
    exact (insertByCreatedDesc_perm u (sortByCreatedDesc us)).trans (List.Perm.cons u ih)

theorem insertByCreatedDesc_pairwise (u : User) (l : List User)
    (hl : l.Pairwise (fun a b => b.createdAt ≤ a.createdAt)) :
    (insertByCreatedDesc u l).Pairwise (fun a b => b.createdAt ≤ a.createdAt) := by
  induction l with
  | nil => simp [insertByCreatedDesc]
  | cons v vs ih =>
    simp only [insertByCreatedDesc]
    rcases List.pairwise_cons.mp hl with ⟨hv, hvs⟩
    by_cases h : v.createdAt ≤ u.createdAt
    · rw [if_pos h]
      refine List.pairwise_cons.mpr ⟨?_, hl⟩
      intro w hw
      rcases List.mem_cons.mp hw with hw | hw
      · subst hw
        exact h
      · exact le_trans (hv w hw) h
    · rw [if_neg h]
      refine List.pairwise_cons.mpr ⟨?_, ih hvs⟩
      intro w hw
      rcases List.mem_cons.mp ((insertByCreatedDesc_perm u vs).mem_iff.mp hw) with hw' | hw'
      · subst hw'
        omega
      · exact hv w hw'

theorem sortByCreatedDesc_pairwise (l : List User) :
    (sortByCreatedDesc l).Pairwise (fun a b => b.createdAt ≤ a.createdAt) := by
  induction l with
  | nil => simp [sortByCreatedDesc]
  | cons u us ih => exact insertByCreatedDesc_pairwise u (sortByCreatedDesc us) ih

theorem find?_append_left_none {α : Type} {p : α → Bool} {l₁ l₂ : List α}
    (h : l₁.find? p = none) : (l₁ ++ l₂).find? p = l₂.find? p := by
  induction l₁ with
  | nil => simp
  | cons a l ih =>
    rw [List.find?_cons] at h
    cases hp : p a with
    | true => rw [hp] at h; exact absurd h (by simp)
    | false =>
      rw [hp] at h
      simpa [List.find?_cons, hp] using ih h

theorem repoFindAll_mem (page limit : Option JsNum) (db : Db) :
    ∀ u ∈ (repoFindAll page limit db).1, u ∈ db.rows := by
  intro u hu
  have hsort := sortByCreatedDesc_perm db.rows
  unfold repoFindAll at hu
  rcases hargs : paginationArgs page limit with _ | ⟨skip, take⟩ <;> rw [hargs] at hu
  · exact hsort.mem_iff.mp (by simpa using hu)
  · simp only at hu
    exact hsort.mem_iff.mp (List.mem_of_mem_drop (List.mem_of_mem_take hu))

theorem repoFindById_mem {id : String} {db : Db} {u : User}
    (h : repoFindById id db = some u) : u ∈ db.rows ∧ u.id = id := by
  refine ⟨List.mem_of_find?_eq_some h, ?_⟩
  have := List.find?_some h
  simpa using this

theorem repoExists_isSome_find? {id : String} {db : Db} (h : repoExists id db = true) :
    ∃ u, repoFindById id db = some u := by
  rcases (repoExists_iff id db).mp h with ⟨u, hu, hid⟩
  have : (db.rows.find? (fun v => v.id = id)).isSome := by
    rw [List.find?_isSome]
    exact ⟨u, hu, by simpa using hid⟩
  rcases Option.isSome_iff_exists.mp this with ⟨v, hv⟩
  exact ⟨v, hv⟩

theorem repoLinkWallet_fst (id addr : String) (db : Db) :
    (repoLinkWallet id addr db).1 = repoFindById id (repoLinkWallet id addr db).2 := rfl

theorem repoLinkWallet_snd_rows (id addr : String) (db : Db) :
    (repoLinkWallet id addr db).2.rows = db.rows.map (fun u =>
      if u.id = id then linkRow addr db.clock u else u) := rfl

theorem repoExists_after_link (id addr : String) (db : Db)
    (hex : repoExists id db = true) :
    repoExists id (repoLinkWallet id addr db).2 = true := by
  rcases (repoExists_iff id db).mp hex with ⟨u, hu, huid⟩
  rw [repoExists_iff, repoLinkWallet_snd_rows]
  refine ⟨_, List.mem_map_of_mem _ hu, ?_⟩
  simp [huid, linkRow]

theorem walletExists_after_link_self (id addr : String) (db : Db) (hid : id ≠ "")
    (hw : walletExists addr (some id) db = false) :
    walletExists addr (some id) (repoLinkWallet id addr db).2 = false := by
  rw [Bool.eq_false_iff]
  intro hc
  rcases (walletExists_iff _ _ _).mp hc with ⟨v, hv, hvw, hvid⟩
  rw [repoLinkWallet_snd_rows] at hv
  rcases List.mem_map.mp hv with ⟨w, hwmem, hfw⟩
  have htr : optStrTruthy (some id) = true := by simp [optStrTruthy, hid]
  have hvid2 : v.id ≠ id := by simpa using hvid htr
  by_cases hwid : w.id = id
  · rw [← hfw] at hvid2
    simp [hwid, linkRow] at hvid2
  · rw [← hfw] at hvw hvid2
    rw [if_neg hwid] at hvw hvid2
    have : walletExists addr (some id) db = true := by
      rw [walletExists_iff]
      exact ⟨w, hwmem, hvw, fun _ => by simpa using hvid2⟩
    rw [hw] at this
    exact absurd this (by simp)

theorem walletExists_after_link_other (idA idB addr : String) (db : Db)
    (hex : repoExists idA db = true) (hne : idB ≠ idA) :
    walletExists addr (some idB) (repoLinkWallet idA addr db).2 = true := by
  rcases (repoExists_iff idA db).mp hex with ⟨u, hu, huid⟩
  rw [walletExists_iff]
  refine ⟨linkRow addr db.clock u, ?_, rfl, ?_⟩
  · rw [repoLinkWallet_snd_rows]
    have := List.mem_map_of_mem (fun v =>
      if v.id = idA then linkRow addr db.clock v else v) hu
    simpa [huid] using this
  · intro _
    simp only [Option.getD, linkRow]
    intro hcontra
    exact hne (by rw [← hcontra, huid])

theorem svcLinkWallet_ok_inv {id addr : String} {db db' : Db} {r : UserResponseDto}
    (hok : svcLinkWallet id addr db = (.ok r, db')) :
    id ≠ "" ∧ repoExists id db = true ∧ walletExists addr (some id) db = false ∧
    db' = (repoLinkWallet id addr db).2 := by
  by_cases hid : id = ""
  · simp [svcLinkWallet, hid] at hok
  by_cases hex : repoExists id db = true
  · by_cases hw : walletExists addr (some id) db = true
    · rw [svcLinkWallet, if_neg hid, if_neg (by simp [hex]), if_pos (by simp [hw])] at hok
      simp at hok
    · refine ⟨hid, hex, by simpa using hw, ?_⟩
      rw [svcLinkWallet, if_neg hid, if_neg (by simp [hex]), if_neg (by simpa using hw)] at hok
      rcases hlw : repoLinkWallet id addr db with ⟨res, dbx⟩
      rw [hlw] at hok
      cases res with
      | none => simp at hok
      | some u =>
        simp only [Prod.mk.injEq] at hok
        rw [← hok.2]
  · rw [svcLinkWallet, if_neg hid, if_pos (by simpa using hex)] at hok
    simp at hok

/-! ## Claim theorems -/

/-- Claim C1: for every create input, if a user with the input's email
already exists, create fails with Conflict; otherwise, if a walletAddress is
provided (truthy, as validated at the API boundary) and already exists
case-insensitively, create fails with Conflict; otherwise create succeeds,
persists the user with the password replaced by its salted hash, and returns
the public response shape. -/
theorem svcCreate_conflict_or_success (dto : CreateUserDto) (db : Db) :
    (emailExists dto.email none db = true → svcCreate dto db = (.error .conflict, db)) ∧
    (emailExists dto.email none db = false →
      optStrTruthy dto.walletAddress = true →
      walletExists (dto.walletAddress.getD "") none db = true →
      svcCreate dto db = (.error .conflict, db)) ∧
    (emailExists dto.email none db = false →
      (optStrTruthy dto.walletAddress = true →
        walletExists (dto.walletAddress.getD "") none db = false) →
      ∃ saved : User, ∃ db' : Db,
        svcCreate dto db = (.ok (toResponseDto saved), db') ∧
        db'.rows = db.rows ++ [saved] ∧
        saved.password = bcryptHash dto.password PASSWORD_SALT_ROUNDS ∧
        saved.password ≠ dto.password ∧
        saved.email = dto.email ∧
        saved.name = dto.name) := by
  refine ⟨?_, ?_, ?_⟩
  · intro h1
    simp [svcCreate, h1]
  · intro h1 h2 h3
    simp [svcCreate, h1, h2, h3]
  · intro h1 h2
    have hguard : ¬ (optStrTruthy dto.walletAddress = true ∧
        walletExists (dto.walletAddress.getD "") none db = true) := by
      rintro ⟨ha, hb⟩
      rw [h2 ha] at hb
      exact Bool.false_ne_true hb
    refine ⟨(repoCreate { dto with
                password := bcryptHash dto.password PASSWORD_SALT_ROUNDS } db).1,
            (repoCreate { dto with
                password := bcryptHash dto.password PASSWORD_SALT_ROUNDS } db).2,
            ?_, ?_, ?_, ?_, ?_, ?_⟩
    · simp only [svcCreate]
      rw [if_neg (by simp [h1]), if_neg hguard]
    · simp [repoCreate]
    · simp [repoCreate]
    · simpa [repoCreate] using bcryptHash_ne_plaintext dto.password PASSWORD_SALT_ROUNDS
    · simp [repoCreate]
    · simp [repoCreate]

def dbEmpty : Db := { rows := [], nextId := 0, clock := 0 }

def cdtoAda : CreateUserDto :=
  { name := "Ada", email := "ada@example.com", password := "secret1",
    role := none, walletAddress := none }

/-- Witness for C1: on the empty store, a create with a fresh email and no
wallet address succeeds and persists the hashed password. -/
theorem svcCreate_conflict_or_success_witness :
    ∃ saved : User, ∃ db' : Db,
      svcCreate cdtoAda dbEmpty = (.ok (toResponseDto saved), db') ∧
      db'.rows = dbEmpty.rows ++ [saved] ∧
      saved.password = bcryptHash cdtoAda.password PASSWORD_SALT_ROUNDS ∧
      saved.password ≠ cdtoAda.password ∧
      saved.email = cdtoAda.email ∧
      saved.name = cdtoAda.name :=
  (svcCreate_conflict_or_success cdtoAda dbEmpty).2.2 (by decide) (by decide)

/-- Claim C2: every operation that returns user data (create, findAll,
findById, update, linkWallet, findByWalletAddress) returns records in the
image of `toResponseDto`, which carries exactly id, name, email, role,
walletAddress, createdAt and updatedAt and is independent of the stored
password field (neither plaintext nor hash can occur in it). -/
theorem responses_never_contain_password :
    (∀ (u : User) (p q : String),
      toResponseDto { u with password := p } = toResponseDto { u with password := q }) ∧
    (∀ u : User,
      (toResponseDto u).id = u.id ∧ (toResponseDto u).name = u.name ∧
      (toResponseDto u).email = u.email ∧ (toResponseDto u).role = u.role ∧
      (toResponseDto u).walletAddress = u.walletAddress ∧
      (toResponseDto u).createdAt = u.createdAt ∧
      (toResponseDto u).updatedAt = u.updatedAt) ∧
    (∀ dto db r db', svcCreate dto db = (.ok r, db') →
      ∃ u ∈ db'.rows, r = toResponseDto u) ∧
    (∀ page limit db, ∀ r ∈ (svcFindAll page limit db).1,
      ∃ u ∈ db.rows, r = toResponseDto u) ∧
    (∀ id db r, svcFindById id db = .ok r → ∃ u ∈ db.rows, r = toResponseDto u) ∧
    (∀ id dto db r db', svcUpdate id dto db = (.ok r, db') →
      ∃ u ∈ db'.rows, r = toResponseDto u) ∧
    (∀ id addr db r db', svcLinkWallet id addr db = (.ok r, db') →
      ∃ u ∈ db'.rows, r = toResponseDto u) ∧
    (∀ addr db r, svcFindByWalletAddress addr db = .ok r →
      ∃ u ∈ db.rows, r = toResponseDto u) := by
  refine ⟨?_, ?_, ?_, ?_, ?_, ?_, ?_, ?_⟩
  · intro u p q
    rfl
  · intro u
    exact ⟨rfl, rfl, rfl, rfl, rfl, rfl, rfl⟩
  · intro dto db r db' h
    by_cases h1 : emailExists dto.email none db = true
    · simp [svcCreate, h1] at h
    · by_cases h2 : (optStrTruthy dto.walletAddress = true ∧
        walletExists (dto.walletAddress.getD "") none db = true)
      · simp [svcCreate, h1, h2] at h
      · rw [svcCreate, if_neg (by simpa using h1), if_neg h2] at h
        simp only [Prod.mk.injEq] at h
        rcases h with ⟨hr, hdb⟩
        refine ⟨(repoCreate { dto with
          password := bcryptHash dto.password PASSWORD_SALT_ROUNDS } db).1, ?_, ?_⟩
        · rw [← hdb]
          simp [repoCreate]
        · exact (Except.ok.inj hr).symm
  · intro page limit db r hr
    simp only [svcFindAll, List.mem_map] at hr
    rcases hr with ⟨u, hu, hru⟩
    exact ⟨u, repoFindAll_mem page limit db u hu, hru.symm⟩
  · intro id db r h
    rw [svcFindById] at h
    by_cases hid : id = ""
    · simp [hid] at h
    · rw [if_neg hid] at h
      rcases hfind : repoFindById id db with _ | u <;> rw [hfind] at h
      · simp at h
      · exact ⟨u, (repoFindById_mem hfind).1, (Except.ok.inj h).symm⟩
  · intro id dto db r db' h
    rw [svcUpdate] at h
    by_cases hid : id = ""
    · simp [hid] at h
    · rw [if_neg hid] at h
      by_cases hex : repoExists id db = true
      · rw [if_neg (by simp [hex])] at h
        by_cases hem : (optStrTruthy dto.email = true ∧
            emailExists (dto.email.getD "") (some id) db = true)
        · rw [if_pos hem] at h
          simp at h
        · rw [if_neg hem] at h
          simp only at h
          split at h
          · simp at h
          · rename_i u dbx heq
            simp only [Prod.mk.injEq] at h
            rcases h with ⟨hr, hdb⟩
            have hfst := congrArg Prod.fst heq
            have hsnd := congrArg Prod.snd heq
            simp only [repoUpdate] at hfst hsnd
            rw [hsnd] at hfst
            exact ⟨u, by rw [← hdb]; exact (repoFindById_mem hfst).1,
              (Except.ok.inj hr).symm⟩
      · rw [if_pos (by simpa using hex)] at h
        simp at h
  · intro id addr db r db' h
    rw [svcLinkWallet] at h
    by_cases hid : id = ""
    · simp [hid] at h
    · rw [if_neg hid] at h
      by_cases hex : repoExists id db = true
      · rw [if_neg (by simp [hex])] at h
        by_cases hw : walletExists addr (some id) db = true
        · rw [if_pos hw] at h
          simp at h
        · rw [if_neg hw] at h
          split at h
          · simp at h
          · rename_i u dbx heq
            simp only [Prod.mk.injEq] at h
            rcases h with ⟨hr, hdb⟩
            have hfst := congrArg Prod.fst heq
            have hsnd := congrArg Prod.snd heq
            simp only [repoLinkWallet] at hfst hsnd
            rw [hsnd] at hfst
            exact ⟨u, by rw [← hdb]; exact (repoFindById_mem hfst).1,
              (Except.ok.inj hr).symm⟩
      · rw [if_pos (by simpa using hex)] at h
        simp at h
  · intro addr db r h
    rw [svcFindByWalletAddress] at h
    by_cases ha : addr = ""
    · simp [ha] at h
    · rw [if_neg ha] at h
      rcases hfind : repoFindByWalletAddress addr db with _ | u <;> rw [hfind] at h
      · simp at h
      · exact ⟨u, List.mem_of_find?_eq_some hfind, (Except.ok.inj h).symm⟩

def uStored : User :=
  { id := "i1", name := "Ada", email := "ada@example.com", password := "hash",
    role := UserRole.user, walletAddress := none, createdAt := 0, updatedAt := 0 }

def dbOne : Db := { rows := [uStored], nextId := 0, clock := 1 }

/-- Witness for C2: the lookup of the single row of a concrete store returns
the `toResponseDto` image of a stored row. -/
theorem responses_never_contain_password_witness :
    ∃ u ∈ dbOne.rows, toResponseDto uStored = toResponseDto u :=
  responses_never_contain_password.2.2.2.2.1 "i1" dbOne (toResponseDto uStored) (by rfl)

/-- Claim C3: after a create with walletAddress `a` (a non-empty address, as
the boundary validation guarantees) succeeds, the stored and returned
walletAddress is the lowercase form of `a`, and `findByWalletAddress b`
returns that same user for every `b` whose lowercase form equals that of
`a`. -/
theorem wallet_stored_lowercase_lookup (dto : CreateUserDto) (a : String) (db : Db)
    (r : UserResponseDto) (db' : Db)
    (hw : dto.walletAddress = some a) (ha : a ≠ "")
    (hok : svcCreate dto db = (.ok r, db')) :
    r.walletAddress = some (jsToLowerCase a) ∧
    ∀ b : String, jsToLowerCase b = jsToLowerCase a →
      svcFindByWalletAddress b db' = .ok r := by
  cases h1 : emailExists dto.email none db with
  | true => simp [svcCreate, h1] at hok
  | false =>
  cases h2 : walletExists a none db with
  | true => simp [svcCreate, h1, h2, hw, optStrTruthy, ha] at hok
  | false =>
  rw [svcCreate, if_neg (by simp [h1]), if_neg (by simp [hw, h2])] at hok
  simp only [repoCreate] at hok
  rw [Prod.mk.injEq, Except.ok.injEq] at hok
  obtain ⟨hr, hdb⟩ := hok
  have hwal : (if optStrTruthy dto.walletAddress = true then
      some (jsToLowerCase (dto.walletAddress.getD "")) else none) =
      some (jsToLowerCase a) := by
    simp [hw, optStrTruthy, ha]
  rw [hwal] at hr hdb
  obtain ⟨saved, hsw, hsr, hsrows⟩ :
      ∃ saved : User, saved.walletAddress = some (jsToLowerCase a) ∧
        toResponseDto saved = r ∧ db'.rows = db.rows ++ [saved] := by
    refine ⟨_, ?_, hr, ?_⟩
    · rfl
    · rw [← hdb]
  constructor
  · rw [← hsr]
    simpa [toResponseDto] using hsw
  · intro b hb
    have hbne : b ≠ "" := by
      intro hbe
      subst hbe
      exact ha ((jsToLowerCase_eq_empty_iff a).mp (by simpa using hb.symm))
    have hnone : db.rows.find?
        (fun u => u.walletAddress = some (jsToLowerCase b)) = none := by
      rw [List.find?_eq_none]
      intro u hu hmatch
      have hmat : u.walletAddress = some (jsToLowerCase a) := by
        rw [← hb]
        exact of_decide_eq_true hmatch
      have hun : ¬ walletExists a none db = true := by simp [h2]
      rw [walletExists_iff] at hun
      push_neg at hun
      simpa [optStrTruthy] using (hun u hu hmat).1
    have hfind : repoFindByWalletAddress b db' = some saved := by
      rw [repoFindByWalletAddress, hsrows, find?_append_left_none hnone]
      exact List.find?_cons_of_pos _ (by simp [hb, hsw])
    simp [svcFindByWalletAddress, hbne, hfind, hsr]

def cdtoBob : CreateUserDto :=
  { name := "Bob", email := "bob@example.com", password := "secret1",
    role := none, walletAddress := some "0xABC" }

def uBob : User :=
  { id := genId 0, name := "Bob", email := "bob@example.com",
    password := bcryptHash "secret1" PASSWORD_SALT_ROUNDS, role := UserRole.user,
    walletAddress := some (jsToLowerCase "0xABC"), createdAt := 0, updatedAt := 0 }

def dbBob : Db := { rows := [uBob], nextId := 1, clock := 1 }

/-- Witness for C3: creating with `0xABC` stores the lowercase address and a
lookup with `0xabc` returns the created record. -/
theorem wallet_stored_lowercase_lookup_witness :
    (toResponseDto uBob).walletAddress = some (jsToLowerCase "0xABC") ∧
    svcFindByWalletAddress "0xabc" dbBob = .ok (toResponseDto uBob) :=
  have h := wallet_stored_lowercase_lookup cdtoBob "0xABC" dbEmpty
    (toResponseDto uBob) dbBob rfl (by decide) (by rfl)
  ⟨h.1, h.2 "0xabc" (by rfl)⟩

/-- Claim C4: for a non-empty id of an existing user, linkWallet fails with
Conflict exactly when the address is already linked (case-insensitively) to a
different user; after a successful linkWallet the same user can re-link the
same address (idempotent self-relink), while any other existing user linking
that address fails with Conflict. -/
theorem linkWallet_conflict_spec :
    (∀ id addr db, id ≠ "" → repoExists id db = true →
      ((svcLinkWallet id addr db).1 = .error .conflict ↔
        walletExists addr (some id) db = true)) ∧
    (∀ idA addr db r db', svcLinkWallet idA addr db = (.ok r, db') →
      ∃ r' db'', svcLinkWallet idA addr db' = (.ok r', db'')) ∧
    (∀ idA idB addr db r db', svcLinkWallet idA addr db = (.ok r, db') →
      idB ≠ idA → idB ≠ "" → repoExists idB db' = true →
      (svcLinkWallet idB addr db').1 = .error .conflict) := by
  refine ⟨?_, ?_, ?_⟩
  · intro id addr db hid hex
    cases hw : walletExists addr (some id) db with
    | true =>
      rw [svcLinkWallet, if_neg hid, if_neg (by simp [hex]), if_pos (by simp [hw])]
      simp
    | false =>
      rw [svcLinkWallet, if_neg hid, if_neg (by simp [hex]), if_neg (by simp [hw])]
      rcases hlw : repoLinkWallet id addr db with ⟨res, dbx⟩
      cases res with
      | none =>
        obtain ⟨u, hu⟩ := repoExists_isSome_find? (repoExists_after_link id addr db hex)
        have h1 : (repoLinkWallet id addr db).1 = none := by rw [hlw]
        rw [repoLinkWallet_fst] at h1
        rw [h1] at hu
        exact absurd hu (by simp)
      | some u => simp
  · intro idA addr db r db' hok
    obtain ⟨hid, hex, hw, hdb⟩ := svcLinkWallet_ok_inv hok
    have hex2 : repoExists idA db' = true :=
      hdb ▸ repoExists_after_link idA addr db hex
    have hw2 : walletExists addr (some idA) db' = false :=
      hdb ▸ walletExists_after_link_self idA addr db hid hw
    rw [svcLinkWallet, if_neg hid, if_neg (by simp [hex2]), if_neg (by simp [hw2])]
    rcases hlw : repoLinkWallet idA addr db' with ⟨res, dbx⟩
    cases res with
    | none =>
      obtain ⟨u, hu⟩ := repoExists_isSome_find? (repoExists_after_link idA addr db' hex2)
      have h1 : (repoLinkWallet idA addr db').1 = none := by rw [hlw]
      rw [repoLinkWallet_fst] at h1
      rw [h1] at hu
      exact absurd hu (by simp)
    | some u => exact ⟨toResponseDto u, dbx, rfl⟩
  · intro idA idB addr db r db' hok hne hidB hexB
    obtain ⟨hidA, hexA, hwA, hdb⟩ := svcLinkWallet_ok_inv hok
    have hwB : walletExists addr (some idB) db' = true :=
      hdb ▸ walletExists_after_link_other idA idB addr db hexA hne
    rw [svcLinkWallet, if_neg hidB, if_neg (by simp [hexB]), if_pos (by simp [hwB])]

def uStored2 : User :=
  { id := "i2", name := "Eve", email := "eve@example.com", password := "hash2",
    role := UserRole.user, walletAddress := none, createdAt := 1, updatedAt := 1 }

def dbTwo : Db := { rows := [uStored, uStored2], nextId := 0, clock := 2 }

def uLinked : User := linkRow "0xAbC" 2 uStored

def dbTwoL : Db := { rows := [uLinked, uStored2], nextId := 0, clock := 3 }

/-- Witness for C4: after user i1 links `0xAbC`, user i2 linking the same
address fails with Conflict. -/
theorem linkWallet_conflict_spec_witness :
    (svcLinkWallet "i2" "0xAbC" dbTwoL).1 = .error .conflict :=
  linkWallet_conflict_spec.2.2 "i1" "i2" "0xAbC" dbTwo (toResponseDto uLinked) dbTwoL
    (by rfl) (by decide) (by decide) (by decide)

/-- Claim C5: for every page `p ≥ 1` and limit `l ≥ 1`, findAll returns the
stored users ordered by createdAt descending, starting at offset `(p-1)*l`,
with at most `l` records; the returned total is the full row count
independent of `p` and `l`; with page and limit omitted the full unpaginated
set is returned. -/
theorem findAll_pagination_spec (p l : Int) (db : Db) (hp : 1 ≤ p) (hl : 1 ≤ l) :
    ∃ sorted : List User,
      sorted.Perm db.rows ∧
      sorted.Pairwise (fun a b => b.createdAt ≤ a.createdAt) ∧
      repoFindAll (some (.int p)) (some (.int l)) db =
        ((sorted.drop ((p - 1) * l).toNat).take l.toNat, db.rows.length) ∧
      (repoFindAll (some (.int p)) (some (.int l)) db).1.length ≤ l.toNat ∧
      repoFindAll none none db = (sorted, db.rows.length) := by
  have hargs : paginationArgs (some (.int p)) (some (.int l)) = some ((p - 1) * l, l) := by
    rw [paginationArgs, if_pos ⟨by omega, by omega⟩]
  refine ⟨sortByCreatedDesc db.rows, sortByCreatedDesc_perm db.rows,
    sortByCreatedDesc_pairwise db.rows, ?_, ?_, rfl⟩
  · simp only [repoFindAll, hargs]
  · simp only [repoFindAll, hargs]
    exact List.length_take_le _ _

/-- Witness for C5: page 2 with limit 1 on a two-row store returns the older
row and reports the full count 2. -/
theorem findAll_pagination_spec_witness :
    ∃ sorted : List User,
      sorted.Perm dbTwo.rows ∧
      sorted.Pairwise (fun a b => b.createdAt ≤ a.createdAt) ∧
      repoFindAll (some (.int 2)) (some (.int 1)) dbTwo =
        ((sorted.drop ((2 - 1) * 1 : Int).toNat).take (1 : Int).toNat,
          dbTwo.rows.length) ∧
      (repoFindAll (some (.int 2)) (some (.int 1)) dbTwo).1.length ≤ (1 : Int).toNat ∧
      repoFindAll none none dbTwo = (sorted, dbTwo.rows.length) :=
  findAll_pagination_spec 2 1 dbTwo (by decide) (by decide)

/-- Claim C6: update with an empty id fails with BadRequest independently of
the store (no row read or written, the store is returned unchanged);
otherwise NotFound when no row has the id; a truthy input email colliding
with a different row's email yields Conflict, while updating a user to its
own current email (unique to that user) is not a Conflict; a truthy input
password is stored as its re-hash, never as the plaintext. -/
theorem svcUpdate_spec :
    (∀ dto db, svcUpdate "" dto db = (.error .badRequest, db)) ∧
    (∀ id dto db, id ≠ "" → repoExists id db = false →
      svcUpdate id dto db = (.error .notFound, db)) ∧
    (∀ id dto db, id ≠ "" → repoExists id db = true →
      optStrTruthy dto.email = true →
      emailExists (dto.email.getD "") (some id) db = true →
      svcUpdate id dto db = (.error .conflict, db)) ∧
    (∀ id dto db u, u ∈ db.rows → u.id = id → id ≠ "" →
      dto.email = some u.email → u.email ≠ "" →
      (∀ v ∈ db.rows, v.email = u.email → v.id = id) →
      (svcUpdate id dto db).1 ≠ .error .conflict) ∧
    (∀ id dto db pw r db', dto.password = some pw → pw ≠ "" →
      svcUpdate id dto db = (.ok r, db') →
      ∀ v ∈ db'.rows, v.id = id →
        v.password = bcryptHash pw PASSWORD_SALT_ROUNDS ∧ v.password ≠ pw) := by
  refine ⟨?_, ?_, ?_, ?_, ?_⟩
  · intro dto db
    rw [svcUpdate, if_pos rfl]
  · intro id dto db hid hex
    rw [svcUpdate, if_neg hid, if_pos (by simp [hex])]
  · intro id dto db hid hex hem hcol
    rw [svcUpdate, if_neg hid, if_neg (by simp [hex]), if_pos ⟨hem, hcol⟩]
  · intro id dto db u hu huid hid hmail hmne hunique
    have hex : repoExists id db = true := (repoExists_iff id db).mpr ⟨u, hu, huid⟩
    have hcol : emailExists (dto.email.getD "") (some id) db = false := by
      rw [Bool.eq_false_iff]
      intro hc
      rcases (emailExists_iff _ _ _).mp hc with ⟨v, hv, hve, hvid⟩
      rw [hmail] at hve
      simp only [Option.getD] at hve
      have : v.id = id := hunique v hv hve
      have htr : optStrTruthy (some id) = true := by simp [optStrTruthy, hid]
      have hne2 : v.id ≠ id := by simpa using hvid htr
      exact hne2 this
    rw [svcUpdate, if_neg hid, if_neg (by simp [hex]),
      if_neg (by simp [hcol])]
    simp only
    split
    · simp
    · simp
  · intro id dto db pw r db' hpw hpwne hok
    rw [svcUpdate] at hok
    by_cases hid : id = ""
    · simp [hid] at hok
    rw [if_neg hid] at hok
    by_cases hex : repoExists id db = true
    · rw [if_neg (by simp [hex])] at hok
      by_cases hem : (optStrTruthy dto.email = true ∧
          emailExists (dto.email.getD "") (some id) db = true)
      · rw [if_pos hem] at hok
        simp at hok
      · rw [if_neg hem] at hok
        simp only at hok
        have htr : optStrTruthy dto.password = true := by
          simp [hpw, optStrTruthy, hpwne]
        rw [if_pos htr] at hok
        split at hok
        · simp at hok
        · rename_i uu dbx heq
          simp only [Prod.mk.injEq] at hok
          have hsnd := congrArg Prod.snd heq
          simp only [repoUpdate] at hsnd
          intro v hv hvid
          rw [← hok.2, ← hsnd] at hv
          simp only at hv
          rcases List.mem_map.mp hv with ⟨w, hwmem, hfw⟩
          by_cases hwid : w.id = id
          · rw [← hfw]
            simp only [hwid, if_pos]
            constructor
            · simp [applyUpdate, hpw]
            · simpa [applyUpdate, hpw] using
                bcryptHash_ne_plaintext pw PASSWORD_SALT_ROUNDS
          · rw [← hfw] at hvid
            rw [if_neg hwid] at hvid
            exact absurd hvid hwid
    · rw [if_pos (by simpa using hex)] at hok
      simp at hok

def dtoPw : UpdateUserDto :=
  { name := none, email := none, password := some "newpass1", role := none }

def dtoPwHashed : UpdateUserDto :=
  { name := none, email := none,
    password := some (bcryptHash "newpass1" PASSWORD_SALT_ROUNDS), role := none }

def uUpd : User := applyUpdate dtoPwHashed uStored 1

def dbUpd : Db := { rows := [uUpd], nextId := 0, clock := 2 }

/-- Witness for C6: updating the password of the stored user persists the
hash, not the plaintext. -/
theorem svcUpdate_spec_witness :
    uUpd.password = bcryptHash "newpass1" PASSWORD_SALT_ROUNDS ∧
    uUpd.password ≠ "newpass1" :=
  svcUpdate_spec.2.2.2.2 "i1" dtoPw dbOne "newpass1" (toResponseDto uUpd) dbUpd
    rfl (by decide) (by rfl) uUpd (by decide) (by decide)

/-- Claim C7: delete with an empty id fails with BadRequest; NotFound when no
row has the id; a successful delete removes the row outright (hard delete)
and an immediately repeated delete of the same id fails with NotFound. -/
theorem svcDelete_spec :
    (∀ db, svcDelete "" db = (.error .badRequest, db)) ∧
    (∀ id db, id ≠ "" → repoExists id db = false →
      svcDelete id db = (.error .notFound, db)) ∧
    (∀ id db, id ≠ "" → repoExists id db = true →
      ∃ db', svcDelete id db = (.ok (), db') ∧
        db'.rows = db.rows.filter (fun u => u.id ≠ id)) ∧
    (∀ id db db', svcDelete id db = (.ok (), db') →
      (∀ u ∈ db'.rows, u.id ≠ id) ∧ svcDelete id db' = (.error .notFound, db')) := by
  refine ⟨?_, ?_, ?_, ?_⟩
  · intro db
    rw [svcDelete, if_pos rfl]
  · intro id db hid hex
    rw [svcDelete, if_neg hid, if_pos (by simp [hex])]
  · intro id db hid hex
    have hlt : (db.rows.filter (fun u => u.id ≠ id)).length < db.rows.length := by
      rw [List.length_filter_lt_length_iff_exists]
      rcases (repoExists_iff id db).mp hex with ⟨u, hu, huid⟩
      exact ⟨u, hu, by simp [huid]⟩
    have hres : svcDelete id db = (.ok (), (repoDelete id db).2) := by
      rw [svcDelete, if_neg hid, if_neg (by simp [hex])]
      simp only [repoDelete]
      rw [if_pos (by simpa using hlt)]
    exact ⟨(repoDelete id db).2, hres, rfl⟩
  · intro id db db' hok
    by_cases hid : id = ""
    · simp [svcDelete, hid] at hok
    rw [svcDelete, if_neg hid] at hok
    by_cases hex : repoExists id db = true
    · rw [if_neg (by simp [hex])] at hok
      simp only [repoDelete] at hok
      by_cases hdel : (db.rows.filter (fun u => u.id ≠ id)).length < db.rows.length
      · rw [if_pos (by simpa using hdel)] at hok
        simp only [Prod.mk.injEq] at hok
        obtain ⟨-, hdb⟩ := hok
        have hmem : ∀ u ∈ db'.rows, u.id ≠ id := by
          rw [← hdb]
          intro u hu
          have := (List.mem_filter.mp hu).2
          simpa using this
        have hex2 : repoExists id db' = false := by
          rw [Bool.eq_false_iff]
          intro hc
          rcases (repoExists_iff id db').mp hc with ⟨u, hu, huid⟩
          exact hmem u hu huid
        exact ⟨hmem, by rw [svcDelete, if_neg hid, if_pos (by simp [hex2])]⟩
      · rw [if_neg (by simpa using hdel)] at hok
        simp at hok
    · rw [if_pos (by simpa using hex)] at hok
      simp at hok

def dbDel : Db := { rows := [], nextId := 0, clock := 1 }

/-- Witness for C7: after the single row i1 of a concrete store is deleted,
the store holds no row with that id and a second delete reports NotFound. -/
theorem svcDelete_spec_witness :
    (∀ u ∈ dbDel.rows, u.id ≠ "i1") ∧
    svcDelete "i1" dbDel = (.error .notFound, dbDel) :=
  svcDelete_spec.2.2.2 "i1" dbOne dbDel (by rfl)

/-- Claim C8: after a create succeeds on a well-formed store and returns
record `r`, findById with `r`'s id succeeds and returns exactly `r` (the
response shape holds no password, so equality in every remaining field is
full equality). -/
theorem create_findById_roundtrip (dto : CreateUserDto) (db : Db) (r : UserResponseDto)
    (db' : Db) (hwf : db.WF) (hok : svcCreate dto db = (.ok r, db')) :
    svcFindById r.id db' = .ok r := by
  cases h1 : emailExists dto.email none db with
  | true => simp [svcCreate, h1] at hok
  | false =>
  by_cases h2 : (optStrTruthy dto.walletAddress = true ∧
      walletExists (dto.walletAddress.getD "") none db = true)
  · rw [svcCreate, if_neg (by simp [h1]), if_pos h2] at hok
    simp at hok
  rw [svcCreate, if_neg (by simp [h1]), if_neg h2] at hok
  simp only [repoCreate] at hok
  rw [Prod.mk.injEq, Except.ok.injEq] at hok
  obtain ⟨hr, hdb⟩ := hok
  obtain ⟨saved, hsid, hsr, hsrows⟩ :
      ∃ saved : User, saved.id = genId db.nextId ∧
        toResponseDto saved = r ∧ db'.rows = db.rows ++ [saved] := by
    refine ⟨_, rfl, hr, ?_⟩
    rw [← hdb]
  have hrid : r.id = genId db.nextId := by
    rw [← hsr, ← hsid]
    rfl
  have hne : r.id ≠ "" := by
    rw [hrid]
    exact genId_ne_empty db.nextId
  have hnone : db.rows.find? (fun u => u.id = r.id) = none := by
    rw [List.find?_eq_none]
    intro u hu hmatch
    rcases hwf.1 u hu with ⟨k, hk, huid⟩
    have hm2 : u.id = genId db.nextId := by
      have := of_decide_eq_true hmatch
      rw [hrid] at this
      exact this
    have h3 : genId k = genId db.nextId := by rw [← huid, hm2]
    have := genId_injective h3
    omega
  have hfind : repoFindById r.id db' = some saved := by
    rw [repoFindById, hsrows, find?_append_left_none hnone]
    exact List.find?_cons_of_pos _ (by simp [hsid, hrid])
  rw [svcFindById, if_neg hne, hfind]
  simpa using hsr

def uAda : User :=
  { id := genId 0, name := "Ada", email := "ada@example.com",
    password := bcryptHash "secret1" PASSWORD_SALT_ROUNDS, role := UserRole.user,
    walletAddress := none, createdAt := 0, updatedAt := 0 }

def dbAda : Db := { rows := [uAda], nextId := 1, clock := 1 }

/-- Witness for C8: the record returned by a concrete create is found again
by its id, unchanged. -/
theorem create_findById_roundtrip_witness :
    svcFindById (toResponseDto uAda).id dbAda = .ok (toResponseDto uAda) :=
  create_findById_roundtrip cdtoAda dbEmpty (toResponseDto uAda) dbAda
    ⟨by simp [dbEmpty], by simp [dbEmpty]⟩ (by rfl)

theorem paginationArgs_nan_left (l : Option JsNum) :
    paginationArgs (some JsNum.nan) l = none := by
  cases l with
  | none => rfl
  | some n => cases n <;> rfl

theorem paginationArgs_nan_right (p : Option JsNum) :
    paginationArgs p (some JsNum.nan) = none := by
  cases p with
  | none => rfl
  | some n => cases n <;> rfl

def uStored3 : User :=
  { id := "i3", name := "Kim", email := "kim@example.com", password := "hash3",
    role := UserRole.user, walletAddress := none, createdAt := 2, updatedAt := 2 }

def db3 : Db := { rows := [uStored, uStored2, uStored3], nextId := 0, clock := 3 }

/-- Counterexample for C9: a non-numeric page does parse to NaN, but the NaN
does not propagate into the `skip = (page-1)*limit` computation: NaN is falsy
in JS, so the repository guard `if (page && limit)` rejects the pair and no
skip/take is handed to the query at all — with page `"abc"` and limit `"2"`
the controller returns all 3 stored rows instead of at most 2. -/
theorem pagination_nan_counterexample :
    parseIntJs "abc" = JsNum.nan ∧
    parseIntJs "2" = JsNum.int 2 ∧
    paginationArgs (some JsNum.nan) (some (JsNum.int 2)) = none ∧
    (controllerFindAll (some "abc") (some "2") db3).data.length = 3 ∧
    (controllerFindAll (some "abc") (some "2") db3).page = JsNum.nan ∧
    (controllerFindAll (some "abc") (some "2") db3).limit = JsNum.int 2 := by
  refine ⟨by decide, by decide, rfl, by decide, by decide, by decide⟩

/-- Claim C9 (amended): page and limit default to `'1'` / `'10'` and are
parsed from string to integer at the API boundary; a non-numeric page or
limit parses to NaN, which is not rejected there and flows into the
repository call, where the falsy NaN makes the `page && limit` guard skip
pagination entirely: the full unpaginated set is returned (and the NaN is
echoed in the response envelope). -/
theorem pagination_nan_amended :
    (parseIntJs "1" = JsNum.int 1 ∧ parseIntJs "10" = JsNum.int 10 ∧
      ∀ db, controllerFindAll none none db =
        controllerFindAll (some "1") (some "10") db) ∧
    (∀ s, parseIntJs s = JsNum.nan → ∀ ls db,
      (controllerFindAll (some s) ls db).page = JsNum.nan ∧
      (controllerFindAll (some s) ls db).data.length = db.rows.length ∧
      (controllerFindAll (some s) ls db).total = db.rows.length) ∧
    (∀ s, parseIntJs s = JsNum.nan → ∀ ps db,
      (controllerFindAll ps (some s) db).limit = JsNum.nan ∧
      (controllerFindAll ps (some s) db).data.length = db.rows.length) := by
  refine ⟨⟨by decide, by decide, fun db => rfl⟩, ?_, ?_⟩
  · intro s hs ls db
    have hrepo : repoFindAll (some (parseIntJs s)) (some (parseIntJs (ls.getD "10"))) db
        = (sortByCreatedDesc db.rows, db.rows.length) := by
      rw [hs, repoFindAll, paginationArgs_nan_left]
    refine ⟨by simp [controllerFindAll, hs], ?_, ?_⟩
    · simp [controllerFindAll, svcFindAll, hrepo,
        (sortByCreatedDesc_perm db.rows).length_eq]
    · simp [controllerFindAll, svcFindAll, hrepo]
  · intro s hs ps db
    have hrepo : repoFindAll (some (parseIntJs (ps.getD "1"))) (some (parseIntJs s)) db
        = (sortByCreatedDesc db.rows, db.rows.length) := by
      rw [hs, repoFindAll, paginationArgs_nan_right]
    refine ⟨by simp [controllerFindAll, hs], ?_⟩
    simp [controllerFindAll, svcFindAll, hrepo,
      (sortByCreatedDesc_perm db.rows).length_eq]

/-- Witness for C9 (amended): the concrete non-numeric page `"abc"` is not
rejected and yields the full 3-row set. -/
theorem pagination_nan_amended_witness :
    (controllerFindAll (some "abc") (some "2") db3).page = JsNum.nan ∧
    (controllerFindAll (some "abc") (some "2") db3).data.length = db3.rows.length ∧
    (controllerFindAll (some "abc") (some "2") db3).total = db3.rows.length :=
  pagination_nan_amended.2.1 "abc" (by decide) (some "2") db3

/-- Claim C10: the emailExists probe compares emails by exact string equality
with no case normalization, so a create whose email is a strict case variant
of an existing user's email (matching no row exactly, with no wallet
provided) passes the email conflict check and succeeds. -/
theorem emailExists_case_sensitive_spec :
    (∀ email excludeId db, emailExists email excludeId db = true ↔
      ∃ u ∈ db.rows, u.email = email ∧
        (optStrTruthy excludeId = true → u.id ≠ excludeId.getD "")) ∧
    (∀ db dto u, u ∈ db.rows →
      jsToLowerCase dto.email = jsToLowerCase u.email →
      dto.email ≠ u.email →
      (∀ v ∈ db.rows, v.email ≠ dto.email) →
      optStrTruthy dto.walletAddress = false →
      ∃ r db', svcCreate dto db = (.ok r, db')) := by
  refine ⟨emailExists_iff, ?_⟩
  intro db dto u hu hlow hne hexact hwal
  have hmail : emailExists dto.email none db = false := by
    rw [Bool.eq_false_iff]
    intro hc
    rcases (emailExists_iff _ _ _).mp hc with ⟨v, hv, hve, -⟩
    exact hexact v hv hve
  have hguard : ¬ (optStrTruthy dto.walletAddress = true ∧
      walletExists (dto.walletAddress.getD "") none db = true) := by
    rintro ⟨ht, -⟩
    rw [hwal] at ht
    exact Bool.false_ne_true ht
  refine ⟨toResponseDto (repoCreate { dto with
      password := bcryptHash dto.password PASSWORD_SALT_ROUNDS } db).1,
    (repoCreate { dto with
      password := bcryptHash dto.password PASSWORD_SALT_ROUNDS } db).2, ?_⟩
  rw [svcCreate, if_neg (by simp [hmail]), if_neg hguard]

def cdtoCase : CreateUserDto :=
  { name := "Cay", email := "Ada@Example.com", password := "secret1",
    role := none, walletAddress := none }

/-- Witness for C10: with `ada@example.com` stored, creating
`Ada@Example.com` (same letters, different case) is not a Conflict. -/
theorem emailExists_case_sensitive_spec_witness :
    ∃ r db', svcCreate cdtoCase dbOne = (.ok r, db') :=
  emailExists_case_sensitive_spec.2 dbOne cdtoCase uStored (by decide)
    (by decide) (by decide) (by decide) (by decide)

end Skillcert
